import Mathlib

/-!
Shallow embedding of helm-version-check (`cmd/main.go`) and of the parts of
its dependency `github.com/Masterminds/semver/v3` that the program calls
(`NewVersion`, `Version.Compare`, `Version.GreaterThan`, `Version.Equal`).

Machine integers are modelled as `Nat` with explicit bounds where the Go code
can overflow (`strconv.ParseUint(_, 10, 64)`).  Go runtime panics (nil-pointer
dereferences) are modelled as explicit error values.  The HTTP fetch plus YAML
decode of `index.yaml` is abstracted as a function `String → FetchOutcome`
from the requested URL to the decoded document (or a failure), and
`getLatestChartVersion` additionally returns the list of URLs it fetched so
that statements about the requested URL can be made.
-/

namespace HelmVC

/-- Untyped Go values (`interface{}`) as produced by the dynamic Kubernetes
client / YAML decoding: nil, strings, numbers, booleans, maps and sequences. -/
inductive GoVal where
  | nil
  | str (s : String)
  | num (n : Int)
  | boolean (b : Bool)
  | map (entries : List (String × GoVal))
  | arr (items : List GoVal)

/-- Lookup in an association list, modelling Go map indexing `m[k]`
(Go map keys are unique; the first binding wins here). -/
def alistLookup {α : Type} : List (String × α) → String → Option α
  | [], _ => none
  | (k, v) :: rest, key => if k = key then some v else alistLookup rest key

/-! ## Masterminds/semver v3: parsing -/

/-- Go `strconv.ParseUint(s, 10, 64)`: succeeds exactly on a non-empty string
of ASCII digits whose value fits in 64 bits; returns the value as a `Nat`. -/
def parseUIntGo (s : String) : Option Nat :=
  let cs := s.data
  if cs = [] then none
  else if cs.all Char.isDigit then
    let n := cs.foldl (fun a c => a * 10 + (c.toNat - 48)) 0
    if n < 18446744073709551616 then some n else none
  else none

/-- A parsed semantic version (`semver.Version`): numeric MAJOR/MINOR/PATCH,
the pre-release and build-metadata parts kept as the matched strings. -/
structure SemVer where
  major : Nat
  minor : Nat
  patch : Nat
  pre : String
  md : String
deriving DecidableEq, Repr

/-- Characters allowed in pre-release / metadata identifiers: `[0-9A-Za-z-]`. -/
def isIdentChar (c : Char) : Bool := c.isAlphanum || c = '-'

/-- Consume `('.' ident+)*` greedily (the starred group of the version regex);
returns (matched chars, rest).  `fuel` bounds the recursion; each step consumes
at least two characters, so `cs.length` fuel is always enough. -/
def dotIdentLoop : Nat → List Char → (List Char × List Char)
  | 0, cs => ([], cs)
  | Nat.succ fuel, '.' :: rest =>
    (match rest.span isIdentChar with
     | ([], _) => ([], '.' :: rest)
     | (idn, rest2) =>
       let (more, fin) := dotIdentLoop fuel rest2
       ('.' :: (idn ++ more), fin))
  | Nat.succ _, cs => ([], cs)

/-- Match `ident+ ('.' ident+)*` (the pre-release / metadata grammar of
`semver.SemVerRegex`); returns the matched text and the rest. -/
def identSeq (cs : List Char) : Option (String × List Char) :=
  match cs.span isIdentChar with
  | ([], _) => none
  | (id1, rest) =>
    let (more, fin) := dotIentLoopCall rest
    some (String.mk (id1 ++ more), fin)
where
  dotIentLoopCall (rest : List Char) : List Char × List Char :=
    dotIdentLoop rest.length rest

/-- Match an optional `'.' digits+` group (minor / patch of the version
regex); returns the digits if the group matched, and the rest. -/
def optDotDigits : List Char → (Option (List Char) × List Char)
  | '.' :: rest =>
    (match rest.span Char.isDigit with
     | ([], _) => (none, '.' :: rest)
     | (ds, rest2) => (some ds, rest2))
  | cs => (none, cs)

/-- `semver.NewVersion`: anchored match of
`v?([0-9]+)(\.[0-9]+)?(\.[0-9]+)?(-(idents))?(\+(idents))?` with each numeric
segment read by `strconv.ParseUint(_, 10, 64)` (so an overflowing segment is a
parse error); absent minor/patch default to 0. -/
def parseSemver (s : String) : Option SemVer :=
  let cs := s.data
  let cs := match cs with
    | 'v' :: rest => rest
    | cs => cs
  match cs.span Char.isDigit with
  | ([], _) => none
  | (majDigits, cs) =>
    match parseUIntGo (String.mk majDigits) with
    | none => none
    | some major =>
      let (minorDigits, cs) := optDotDigits cs
      let minorVal := match minorDigits with
        | none => some 0
        | some ds => parseUIntGo (String.mk ds)
      match minorVal with
      | none => none
      | some minor =>
        let (patchDigits, cs) := optDotDigits cs
        let patchVal := match patchDigits with
          | none => some 0
          | some ds => parseUIntGo (String.mk ds)
        match patchVal with
        | none => none
        | some patch =>
          let preAndRest : Option (String × List Char) := match cs with
            | '-' :: rest =>
              (match identSeq rest with
               | none => none
               | some (p, rest2) => some (p, rest2))
            | cs => some ("", cs)
          match preAndRest with
          | none => none
          | some (pre, cs) =>
            let mdAndRest : Option (String × List Char) := match cs with
              | '+' :: rest =>
                (match identSeq rest with
                 | none => none
                 | some (m, rest2) => some (m, rest2))
              | cs => some ("", cs)
            match mdAndRest with
            | none => none
            | some (md, cs) =>
              if cs = [] then some ⟨major, minor, patch, pre, md⟩ else none

/-! ## Masterminds/semver v3: comparison -/

/-- Go byte-wise string comparison `s < o` (all strings the comparator sees
are ASCII identifiers, where byte order and codepoint order coincide). -/
def lexLt : List Char → List Char → Bool
  | [], [] => false
  | [], _ :: _ => true
  | _ :: _, [] => false
  | a :: as, b :: bs =>
    if a.toNat < b.toNat then true
    else if b.toNat < a.toNat then false
    else lexLt as bs

/-- `compareSegment`: three-way comparison of numeric version segments. -/
def compareSegment (v o : Nat) : Int :=
  if v < o then -1 else if o < v then 1 else 0

/-- `comparePrePart`: compare two pre-release identifiers.  Identical strings
are equal; an empty identifier sorts below a non-empty one; identifiers that
parse as uint64 sort below ones that do not, and numerically among themselves
(note: value-equal numbers with different spellings, e.g. "1" vs "01", fall
into the final `return -1`, in both directions, exactly as the Go code does);
non-numeric identifiers compare byte-wise. -/
def comparePrePart (s o : String) : Int :=
  if s = o then 0
  else if s = "" then (if o ≠ "" then -1 else 1)
  else if o = "" then (if s ≠ "" then 1 else -1)
  else
    match parseUIntGo o, parseUIntGo s with
    | none, none => if lexLt o.data s.data then 1 else -1
    | none, some _ => -1
    | some _, none => 1
    | some oi, some si => if oi < si then 1 else -1

/-- `comparePrerelease`'s loop: walk both identifier lists to the longer
length, padding the shorter with "", returning the first non-zero verdict. -/
def comparePreParts : List String → List String → Int
  | [], [] => 0
  | s :: ss, [] =>
    (if comparePrePart s "" = 0 then comparePreParts ss [] else comparePrePart s "")
  | [], o :: os =>
    (if comparePrePart "" o = 0 then comparePreParts [] os else comparePrePart "" o)
  | s :: ss, o :: os =>
    (if comparePrePart s o = 0 then comparePreParts ss os else comparePrePart s o)
termination_by xs ys => xs.length + ys.length

/-- The pre-release tail of `Version.Compare`: absent pre-release sorts above
any pre-release; otherwise split both on "." and compare part-wise. -/
def comparePre (p q : String) : Int :=
  if p = "" ∧ q = "" then 0
  else if p = "" then 1
  else if q = "" then -1
  else comparePreParts (p.splitOn ".") (q.splitOn ".")

/-- `Version.Compare`: major, minor, patch numerically, then pre-release;
build metadata is ignored. -/
def compareVersions (v o : SemVer) : Int :=
  let d1 := compareSegment v.major o.major
  if d1 ≠ 0 then d1 else
  let d2 := compareSegment v.minor o.minor
  if d2 ≠ 0 then d2 else
  let d3 := compareSegment v.patch o.patch
  if d3 ≠ 0 then d3 else
  comparePre v.pre o.pre

/-! ## getLatestChartVersion -/

/-- Outcome of `http.Get(url)` plus YAML-decoding the body into
`struct{ Entries map[string][]struct{ Version string } }`: a network error, a
decode error, or the decoded `entries` map (chart name ↦ version strings). -/
inductive FetchOutcome where
  | netErr
  | decodeErr
  | ok (entries : List (String × List String))

/-- The two error returns of `getLatestChartVersion`. -/
inductive ResolveErr where
  | fetchError
  | notFound
deriving DecidableEq, Repr

/-- Result of `getLatestChartVersion`: a returned error, a Go runtime panic
(nil-pointer dereference inside the scan), or the resolved version. -/
inductive ResolveOutcome where
  | failed (e : ResolveErr)
  | crashed
  | ok (version : String)
deriving DecidableEq, Repr

/-- One iteration of the scan at lines 71-84 of `cmd/main.go`:
`current, err := semver.NewVersion(latest)` (err only logged), then
`next, err := semver.NewVersion(v.Version)`; the guard is
`err == nil && next.GreaterThan(current)`.  When the candidate parses but
`latest` does not, `current` is a nil pointer and `next.GreaterThan(current)`
dereferences it (`Compare` reads `o.Major()` unguarded in every released v3
of Masterminds/semver), a runtime panic, modelled as `Except.error ()`. -/
def scanStep (latest cand : String) : Except Unit String :=
  let current := parseSemver latest
  match parseSemver cand with
  | none => Except.ok latest
  | some next =>
    match current with
    | none => Except.error ()
    | some cur => Except.ok (if 0 < compareVersions next cur then cand else latest)

/-- The scan loop: `latest := versions[0]; for _, v := range versions[1:]`. -/
def scanLatest : String → List String → Except Unit String
  | latest, [] => Except.ok latest
  | latest, c :: rest =>
    match scanStep latest c with
    | Except.error e => Except.error e
    | Except.ok l2 => scanLatest l2 rest

/-- `getLatestChartVersion(repoURL, chartName)` (lines 38-89): fetch
`repoURL + "/index.yaml"`, decode, look the chart up in `entries`, fail when
it is absent or has no versions, otherwise scan for the latest version.
The second component records the URLs passed to `http.Get`, in order. -/
def getLatestChartVersion (fetch : String → FetchOutcome)
    (repoURL chartName : String) : ResolveOutcome × List String :=
  let url := repoURL ++ "/index.yaml"
  (match fetch url with
   | FetchOutcome.netErr => ResolveOutcome.failed ResolveErr.fetchError
   | FetchOutcome.decodeErr => ResolveOutcome.failed ResolveErr.fetchError
   | FetchOutcome.ok entries =>
     match alistLookup entries chartName with
     | none => ResolveOutcome.failed ResolveErr.notFound
     | some [] => ResolveOutcome.failed ResolveErr.notFound
     | some (v0 :: rest) =>
       match scanLatest v0 rest with
       | Except.error _ => ResolveOutcome.crashed
       | Except.ok v => ResolveOutcome.ok v,
   [url])

/-! ## processHelmSource -/

/-- The three fields extracted from a source map (the spec's
HelmSourceDescriptor): `chart`, normalized `repoURL`, `targetRevision`. -/
structure HelmSourceDescriptor where
  chartName : String
  repoURL : String
  chartVersion : String
deriving DecidableEq, Repr

/-- Read a string-typed field by key: a missing key, a non-string value, or a
string value yield `""`, the value, respectively (lines 105-113). -/
def readStr (source : List (String × GoVal)) (key : String) : String :=
  match alistLookup source key with
  | some (GoVal.str s) => s
  | _ => ""

/-- `strings.HasSuffix(s, suffix)`. -/
def goHasSuffix (s suffix : String) : Bool := suffix.data.isSuffixOf s.data

/-- Lines 127-132: append "/" to `repoURL` unless it already ends with "/". -/
def normalizeRepoURL (u : String) : String :=
  if goHasSuffix u "/" then u else u ++ "/"

/-- Lines 93-132 of `processHelmSource`: return absent when the `chart` key is
missing or nil, extract the three string fields, return absent when any is
empty, otherwise normalize the repository URL and yield the descriptor. -/
def extractHelmSource (source : List (String × GoVal)) : Option HelmSourceDescriptor :=
  match alistLookup source "chart" with
  | none => none
  | some GoVal.nil => none
  | some _ =>
    let chartName := readStr source "chart"
    let repoURL := readStr source "repoURL"
    let chartVersion := readStr source "targetRevision"
    if chartName = "" ∨ repoURL = "" ∨ chartVersion = "" then none
    else some ⟨chartName, normalizeRepoURL repoURL, chartVersion⟩

/-- Lines 140-151: parse the declared and latest versions; the gauge is 1.0
exactly when the latest parses and `currentVer.Equal(latestVer)` holds.
Modelled from the spec: the pinned Masterminds/semver version is fixed by
go.mod, which is not among the provided sources; since v3.3.0 `Equal` checks
its operands for nil and returns false, which realizes the spec's rule that a
parse failure on either side forces isCurrent = false (never a panic), so
`Equal` is embedded with that nil guard: an unparsable declared version
compares unequal to any parsed latest. -/
def statusOf (chartVersion latestVersion : String) : Bool :=
  match parseSemver latestVersion with
  | none => false
  | some latestVer =>
    match parseSemver chartVersion with
    | none => false
    | some currentVer => compareVersions currentVer latestVer = 0

/-- One gauge update `helm_chart_version_status{...} = status`: the five
labels and the 1.0/0.0 value as a Bool. -/
structure StatusSample where
  application : String
  chart : String
  repoURL : String
  currentVersion : String
  latestVersion : String
  isCurrent : Bool
deriving DecidableEq, Repr

/-- `processHelmSource(appName, source)` (lines 92-172): extract the Helm
fields (return silently when absent/incomplete), resolve the latest chart
version (log and return on error), compute the status and set the gauge.
Returns the emitted samples (0 or 1) and whether a runtime panic occurred. -/
def processHelmSource (fetch : String → FetchOutcome) (appName : String)
    (source : List (String × GoVal)) : List StatusSample × Bool :=
  match extractHelmSource source with
  | none => ([], false)
  | some d =>
    match (getLatestChartVersion fetch d.repoURL d.chartName).1 with
    | ResolveOutcome.failed _ => ([], false)
    | ResolveOutcome.crashed => ([], true)
    | ResolveOutcome.ok latestVersion =>
      ([⟨appName, d.chartName, d.repoURL, d.chartVersion, latestVersion,
         statusOf d.chartVersion latestVersion⟩], false)

/-! ## The reconciliation cycle (body of `main`'s for-loop, lines 235-275) -/

/-- One listed application: its name and its untyped object. -/
structure AppRecord where
  name : String
  object : List (String × GoVal)

/-- Lines 258-271: iterate `spec.sources`, processing each entry that is a
map and skipping the others.  A runtime panic aborts the remaining entries. -/
def processSourcesList (fetch : String → FetchOutcome) (name : String) :
    List GoVal → List StatusSample × Bool
  | [] => ([], false)
  | v :: rest =>
    match v with
    | GoVal.map src =>
      let r := processHelmSource fetch name src
      if r.2 then r
      else
        let r2 := processSourcesList fetch name rest
        (r.1 ++ r2.1, r2.2)
    | _ => processSourcesList fetch name rest

/-- Lines 241-274 for one application: read `spec` (skip the application when
missing or not a map), process `spec.source` when it is a map, then each map
entry of `spec.sources` when it is a sequence. -/
def processApp (fetch : String → FetchOutcome) (a : AppRecord) :
    List StatusSample × Bool :=
  match alistLookup a.object "spec" with
  | some (GoVal.map spec) =>
    let r1 := match alistLookup spec "source" with
      | some (GoVal.map src) => processHelmSource fetch a.name src
      | _ => ([], false)
    if r1.2 then r1
    else
      match alistLookup spec "sources" with
      | some (GoVal.arr srcs) =>
        let r2 := processSourcesList fetch a.name srcs
        (r1.1 ++ r2.1, r2.2)
      | _ => r1
  | _ => ([], false)

/-- One reconciliation cycle over the listed applications, in order.  A
runtime panic kills the process: the samples emitted so far stand, the rest
of the cycle never runs. -/
def runOnce (fetch : String → FetchOutcome) : List AppRecord → List StatusSample × Bool
  | [] => ([], false)
  | a :: rest =>
    let r := processApp fetch a
    if r.2 then r
    else
      let r2 := runOnce fetch rest
      (r.1 ++ r2.1, r2.2)

/-! ## Lemmas about the embedded semver comparator -/

theorem parseUIntGo_ne_empty {s : String} {n : Nat} (h : parseUIntGo s = some n) :
    s ≠ "" := by
  intro he
  subst he
  simp [parseUIntGo] at h

theorem lexLt_irrefl : ∀ l : List Char, lexLt l l = false := by
  intro l
  induction l with
  | nil => rfl
  | cons a as ih => simp [lexLt, ih]

theorem lexLt_trans : ∀ a b c : List Char,
    lexLt a b = true → lexLt b c = true → lexLt a c = true := by
  intro a
  induction a with
  | nil =>
    intro b c h1 h2
    cases b with
    | nil => simp [lexLt] at h1
    | cons b bs =>
      cases c with
      | nil => simp [lexLt] at h2
      | cons c cs => simp [lexLt]
  | cons a as ih =>
    intro b c h1 h2
    cases b with
    | nil => simp [lexLt] at h1
    | cons b bs =>
      cases c with
      | nil => simp [lexLt] at h2
      | cons c cs =>
        simp only [lexLt] at h1 h2 ⊢
        by_cases hab : a.toNat < b.toNat
        · by_cases hbc : b.toNat < c.toNat
          · have : a.toNat < c.toNat := by omega
            simp [this]
          · rw [if_neg hbc] at h2
            by_cases hcb : c.toNat < b.toNat
            · rw [if_pos hcb] at h2
              exact absurd h2 (by simp)
            · rw [if_neg hcb] at h2
              have : a.toNat < c.toNat := by omega
              simp [this]
        · rw [if_neg hab] at h1
          by_cases hba : b.toNat < a.toNat
          · rw [if_pos hba] at h1
            exact absurd h1 (by simp)
          · rw [if_neg hba] at h1
            by_cases hbc : b.toNat < c.toNat
            · have : a.toNat < c.toNat := by omega
              simp [this]
            · rw [if_neg hbc] at h2
              by_cases hcb : c.toNat < b.toNat
              · rw [if_pos hcb] at h2
                exact absurd h2 (by simp)
              · rw [if_neg hcb] at h2
                have hac : ¬ a.toNat < c.toNat := by omega
                have hca : ¬ c.toNat < a.toNat := by omega
                simp [hac, hca]
                exact ih bs cs h1 h2

theorem comparePrePart_eq_zero_iff (s o : String) :
    comparePrePart s o = 0 ↔ s = o := by
  unfold comparePrePart
  by_cases h : s = o
  · simp [h]
  · rw [if_neg h]
    by_cases hs : s = ""
    · rw [if_pos hs]
      have ho : o ≠ "" := fun he => h (hs.trans he.symm)
      rw [if_pos ho]
      exact iff_of_false (by omega) h
    · rw [if_neg hs]
      by_cases ho : o = ""
      · rw [if_pos ho, if_pos hs]
        exact iff_of_false (by omega) h
      · rw [if_neg ho]
        rcases hpo : parseUIntGo o with _ | oi <;> rcases hps : parseUIntGo s with _ | si <;>
          simp only [hpo, hps]
        · by_cases hl : lexLt o.data s.data
          · rw [if_pos hl]
            exact iff_of_false (by omega) h
          · rw [if_neg hl]
            exact iff_of_false (by omega) h
        · exact iff_of_false (by omega) h
        · exact iff_of_false (by omega) h
        · by_cases hl : oi < si
          · rw [if_pos hl]
            exact iff_of_false (by omega) h
          · rw [if_neg hl]
            exact iff_of_false (by omega) h

theorem comparePrePart_pos_iff (s o : String) :
    0 < comparePrePart s o ↔
      (s ≠ "" ∧ o = "") ∨
      (s ≠ "" ∧ o ≠ "" ∧ parseUIntGo s = none ∧ parseUIntGo o = none ∧
        lexLt o.data s.data = true) ∨
      (s ≠ "" ∧ o ≠ "" ∧ parseUIntGo s = none ∧ (∃ n, parseUIntGo o = some n)) ∨
      (s ≠ "" ∧ o ≠ "" ∧ ∃ m n, parseUIntGo s = some m ∧ parseUIntGo o = some n ∧ n < m) := by
  constructor
  · intro hpos
    unfold comparePrePart at hpos
    by_cases h : s = o
    · rw [if_pos h] at hpos
      omega
    · rw [if_neg h] at hpos
      by_cases hs : s = ""
      · rw [if_pos hs] at hpos
        by_cases ho : o ≠ ""
        · rw [if_pos ho] at hpos
          omega
        · exact absurd (hs.trans (not_not.mp ho).symm) h
      · rw [if_neg hs] at hpos
        by_cases ho : o = ""
        · exact Or.inl ⟨hs, ho⟩
        · rw [if_neg ho] at hpos
          rcases hpo : parseUIntGo o with _ | oi <;> rcases hps : parseUIntGo s with _ | si <;>
            rw [hpo, hps] at hpos
          · have hpos' : (0 : Int) < (if lexLt o.data s.data = true then 1 else -1) := hpos
            by_cases hl : lexLt o.data s.data
            · exact Or.inr (Or.inl ⟨hs, ho, rfl, rfl, hl⟩)
            · rw [if_neg hl] at hpos'
              omega
          · have hpos' : (0 : Int) < -1 := hpos
            omega
          · exact Or.inr (Or.inr (Or.inl ⟨hs, ho, rfl, ⟨oi, rfl⟩⟩))
          · have hpos' : (0 : Int) < (if oi < si then 1 else -1) := hpos
            by_cases hl : oi < si
            · exact Or.inr (Or.inr (Or.inr ⟨hs, ho, si, oi, rfl, rfl, hl⟩))
            · rw [if_neg hl] at hpos'
              omega
  · intro hcase
    have hne : s ≠ o := by
      rcases hcase with ⟨hs, ho⟩ | ⟨hs, ho, hps, hpo, hl⟩ | ⟨hs, ho, hps, _, hpo⟩ |
        ⟨hs, ho, m, n, hps, hpo, hmn⟩
      · exact fun he => hs (he.trans ho)
      · intro he
        rw [he] at hl
        rw [lexLt_irrefl] at hl
        exact absurd hl (by simp)
      · intro he
        rw [he, hpo] at hps
        exact absurd hps (by simp)
      · intro he
        rw [he, hpo] at hps
        have : n = m := Option.some.inj hps
        omega
    unfold comparePrePart
    rw [if_neg hne]
    rcases hcase with ⟨hs, ho⟩ | ⟨hs, ho, hps, hpo, hl⟩ | ⟨hs, ho, hps, ⟨n, hpo⟩⟩ |
      ⟨hs, ho, m, n, hps, hpo, hmn⟩
    · rw [if_neg hs, if_pos ho, if_pos hs]
      omega
    · rw [if_neg hs, if_neg ho, hpo, hps]
      show (0 : Int) < (if lexLt o.data s.data = true then 1 else -1)
      rw [if_pos hl]
      omega
    · rw [if_neg hs, if_neg ho, hpo, hps]
      show (0 : Int) < (1 : Int)
      omega
    · rw [if_neg hs, if_neg ho, hpo, hps]
      show (0 : Int) < (if n < m then 1 else -1)
      rw [if_pos hmn]
      omega

theorem comparePrePart_pos_trans {s o t : String}
    (h1 : 0 < comparePrePart s o) (h2 : 0 < comparePrePart o t) :
    0 < comparePrePart s t := by
  rw [comparePrePart_pos_iff] at h1 h2 ⊢
  rcases h1 with ⟨hs, ho⟩ | ⟨hs, ho, hps, hpo, hl⟩ | ⟨hs, ho, hps, ⟨n, hpo⟩⟩ |
    ⟨hs, ho, m, n, hps, hpo, hmn⟩
  · rcases h2 with ⟨ho2, _⟩ | ⟨ho2, _⟩ | ⟨ho2, _⟩ | ⟨ho2, _⟩ <;> exact absurd ho ho2
  · rcases h2 with ⟨_, ht⟩ | ⟨_, ht, hpo2, hpt, hl2⟩ | ⟨_, ht, hpo2, ⟨k, hpt⟩⟩ |
      ⟨_, ht, m2, n2, hpo2, hpt, hk⟩
    · exact Or.inl ⟨hs, ht⟩
    · exact Or.inr (Or.inl ⟨hs, ht, hps, hpt, lexLt_trans _ _ _ hl2 hl⟩)
    · exact Or.inr (Or.inr (Or.inl ⟨hs, ht, hps, ⟨k, hpt⟩⟩))
    · rw [hpo] at hpo2
      exact absurd hpo2 (by simp)
  · rcases h2 with ⟨_, ht⟩ | ⟨_, ht, hpo2, hpt, hl2⟩ | ⟨_, ht, hpo2, ⟨k, hpt⟩⟩ |
      ⟨_, ht, m2, n2, hpo2, hpt, hk⟩
    · exact Or.inl ⟨hs, ht⟩
    · rw [hpo] at hpo2
      exact absurd hpo2 (by simp)
    · rw [hpo] at hpo2
      exact absurd hpo2 (by simp)
    · exact Or.inr (Or.inr (Or.inl ⟨hs, parseUIntGo_ne_empty hpt, hps, ⟨n2, hpt⟩⟩))
  · rcases h2 with ⟨_, ht⟩ | ⟨_, ht, hpo2, hpt, hl2⟩ | ⟨_, ht, hpo2, ⟨k, hpt⟩⟩ |
      ⟨_, ht, m2, n2, hpo2, hpt, hk⟩
    · exact Or.inl ⟨hs, ht⟩
    · rw [hpo] at hpo2
      exact absurd hpo2 (by simp)
    · rw [hpo] at hpo2
      exact absurd hpo2 (by simp)
    · have hnm2 : n = m2 := by
        rw [hpo] at hpo2
        exact Option.some.inj hpo2
      exact Or.inr (Or.inr (Or.inr ⟨hs, ht, m, n2, hps, hpt, by omega⟩))

theorem comparePreParts_self : ∀ xs : List String, comparePreParts xs xs = 0 := by
  intro xs
  induction xs with
  | nil => simp [comparePreParts]
  | cons s ss ih =>
    have h0 : comparePrePart s s = 0 := (comparePrePart_eq_zero_iff s s).2 rfl
    simp [comparePreParts, h0, ih]

theorem comparePreParts_unfold (xs ys : List String) (h : xs ≠ [] ∨ ys ≠ []) :
    comparePreParts xs ys =
      if comparePrePart (xs.headD "") (ys.headD "") = 0 then
        comparePreParts xs.tail ys.tail
      else comparePrePart (xs.headD "") (ys.headD "") := by
  match xs, ys with
  | [], [] => simp at h
  | [], o :: os => simp [comparePreParts]
  | s :: ss, [] => simp [comparePreParts]
  | s :: ss, o :: os => simp [comparePreParts]

theorem comparePreParts_pos_trans :
    ∀ (n : Nat) (a b c : List String), a.length + b.length + c.length ≤ n →
      0 < comparePreParts a b → 0 < comparePreParts b c → 0 < comparePreParts a c := by
  intro n
  induction n with
  | zero =>
    intro a b c hlen h1 h2
    have ha : a = [] := by cases a <;> simp_all
    have hb : b = [] := by cases b <;> simp_all
    rw [ha, hb] at h1
    simp [comparePreParts] at h1
  | succ n ih =>
    intro a b c hlen h1 h2
    have hab : a ≠ [] ∨ b ≠ [] := by
      by_contra hcon
      push_neg at hcon
      rw [hcon.1, hcon.2] at h1
      simp [comparePreParts] at h1
    have hbc : b ≠ [] ∨ c ≠ [] := by
      by_contra hcon
      push_neg at hcon
      rw [hcon.1, hcon.2] at h2
      simp [comparePreParts] at h2
    rw [comparePreParts_unfold a b hab] at h1
    rw [comparePreParts_unfold b c hbc] at h2
    by_cases e1 : comparePrePart (a.headD "") (b.headD "") = 0
    · have heq1 : a.headD "" = b.headD "" := (comparePrePart_eq_zero_iff _ _).1 e1
      rw [if_pos e1] at h1
      by_cases e2 : comparePrePart (b.headD "") (c.headD "") = 0
      · have heq2 : b.headD "" = c.headD "" := (comparePrePart_eq_zero_iff _ _).1 e2
        rw [if_pos e2] at h2
        have hlen' : a.tail.length + b.tail.length + c.tail.length ≤ n := by
          have la := List.length_tail a
          have lb := List.length_tail b
          have lc := List.length_tail c
          have : 0 < a.length ∨ 0 < b.length := by
            rcases hab with h | h
            · exact Or.inl (List.length_pos.2 h)
            · exact Or.inr (List.length_pos.2 h)
          omega
        have hrec := ih a.tail b.tail c.tail hlen' h1 h2
        have hac : a ≠ [] ∨ c ≠ [] := by
          by_contra hcon
          push_neg at hcon
          rw [hcon.1, hcon.2] at hrec
          simp [comparePreParts] at hrec
        rw [comparePreParts_unfold a c hac]
        have e3 : comparePrePart (a.headD "") (c.headD "") = 0 :=
          (comparePrePart_eq_zero_iff _ _).2 (heq1.trans heq2)
        rw [if_pos e3]
        exact hrec
      · rw [if_neg e2] at h2
        have hpos : 0 < comparePrePart (a.headD "") (c.headD "") := heq1 ▸ h2
        have hac : a ≠ [] ∨ c ≠ [] := by
          by_contra hcon
          push_neg at hcon
          rw [hcon.1, hcon.2] at hpos
          have : comparePrePart "" "" = 0 := (comparePrePart_eq_zero_iff _ _).2 rfl
          simp only [List.headD] at hpos
          omega
        rw [comparePreParts_unfold a c hac, if_neg (by omega)]
        exact hpos
    · rw [if_neg e1] at h1
      by_cases e2 : comparePrePart (b.headD "") (c.headD "") = 0
      · have heq2 : b.headD "" = c.headD "" := (comparePrePart_eq_zero_iff _ _).1 e2
        have hpos : 0 < comparePrePart (a.headD "") (c.headD "") := heq2 ▸ h1
        have hac : a ≠ [] ∨ c ≠ [] := by
          by_contra hcon
          push_neg at hcon
          rw [hcon.1, hcon.2] at hpos
          have : comparePrePart "" "" = 0 := (comparePrePart_eq_zero_iff _ _).2 rfl
          simp only [List.headD] at hpos
          omega
        rw [comparePreParts_unfold a c hac, if_neg (by omega)]
        exact hpos
      · rw [if_neg e2] at h2
        have hpos := comparePrePart_pos_trans h1 h2
        have hac : a ≠ [] ∨ c ≠ [] := by
          by_contra hcon
          push_neg at hcon
          rw [hcon.1, hcon.2] at hpos
          have : comparePrePart "" "" = 0 := (comparePrePart_eq_zero_iff _ _).2 rfl
          simp only [List.headD] at hpos
          omega
        rw [comparePreParts_unfold a c hac, if_neg (by omega)]
        exact hpos

theorem comparePre_self (p : String) : comparePre p p = 0 := by
  by_cases hp : p = ""
  · simp [comparePre, hp]
  · simp [comparePre, hp, comparePreParts_self]

theorem comparePre_pos_trans {p q r : String}
    (h1 : 0 < comparePre p q) (h2 : 0 < comparePre q r) : 0 < comparePre p r := by
  unfold comparePre at h1 h2 ⊢
  by_cases hp : p = ""
  · by_cases hq : q = ""
    · rw [if_pos ⟨hp, hq⟩] at h1
      omega
    · rw [if_neg (fun hx => hq hx.2), if_pos hp] at h1
      rw [if_neg (fun hx => hq hx.1), if_neg hq] at h2
      by_cases hr : r = ""
      · rw [if_pos hr] at h2
        omega
      · rw [if_neg (fun hx => hr hx.2), if_pos hp]
        omega
  · by_cases hq : q = ""
    · rw [if_neg (fun hx => hp hx.1), if_neg hp, if_pos hq] at h1
      omega
    · rw [if_neg (fun hx => hp hx.1), if_neg hp, if_neg hq] at h1
      by_cases hr : r = ""
      · rw [if_neg (fun hx => hq hx.1), if_neg hq, if_pos hr] at h2
        omega
      · rw [if_neg (fun hx => hq hx.1), if_neg hq, if_neg hr] at h2
        rw [if_neg (fun hx => hp hx.1), if_neg hp, if_neg hr]
        exact comparePreParts_pos_trans
          ((p.splitOn ".").length + (q.splitOn ".").length + (r.splitOn ".").length)
          _ _ _ (le_refl _) h1 h2

theorem compareSegment_self (a : Nat) : compareSegment a a = 0 := by
  simp [compareSegment]

theorem compareVersions_self (v : SemVer) : compareVersions v v = 0 := by
  simp [compareVersions, compareSegment_self, comparePre_self]

theorem compareVersions_eq (v o : SemVer) :
    compareVersions v o =
      if v.major < o.major then -1 else if o.major < v.major then 1 else
      if v.minor < o.minor then -1 else if o.minor < v.minor then 1 else
      if v.patch < o.patch then -1 else if o.patch < v.patch then 1 else
      comparePre v.pre o.pre := by
  unfold compareVersions compareSegment
  by_cases h1 : v.major < o.major
  · norm_num [h1]
  · by_cases h1' : o.major < v.major
    · norm_num [h1, h1']
    · by_cases h2 : v.minor < o.minor
      · norm_num [h1, h1', h2]
      · by_cases h2' : o.minor < v.minor
        · norm_num [h1, h1', h2, h2']
        · by_cases h3 : v.patch < o.patch
          · norm_num [h1, h1', h2, h2', h3]
          · by_cases h3' : o.patch < v.patch
            · norm_num [h1, h1', h2, h2', h3, h3']
            · norm_num [h1, h1', h2, h2', h3, h3']

theorem compareVersions_pos_iff (v o : SemVer) :
    0 < compareVersions v o ↔
      (o.major < v.major) ∨
      (v.major = o.major ∧ o.minor < v.minor) ∨
      (v.major = o.major ∧ v.minor = o.minor ∧ o.patch < v.patch) ∨
      (v.major = o.major ∧ v.minor = o.minor ∧ v.patch = o.patch ∧
        0 < comparePre v.pre o.pre) := by
  rw [compareVersions_eq]
  by_cases h1 : v.major < o.major
  · rw [if_pos h1]
    constructor
    · intro hx
      exact absurd hx (by omega)
    · intro hx
      exfalso
      rcases hx with h | ⟨e, _⟩ | ⟨e, _⟩ | ⟨e, _⟩ <;> omega
  · rw [if_neg h1]
    by_cases h1' : o.major < v.major
    · rw [if_pos h1']
      constructor
      · intro _
        exact Or.inl h1'
      · intro _
        omega
    · rw [if_neg h1']
      have e1 : v.major = o.major := by omega
      by_cases h2 : v.minor < o.minor
      · rw [if_pos h2]
        constructor
        · intro hx
          exact absurd hx (by omega)
        · intro hx
          exfalso
          rcases hx with h | ⟨_, hm⟩ | ⟨_, hm, _⟩ | ⟨_, hm, _⟩ <;> omega
      · rw [if_neg h2]
        by_cases h2' : o.minor < v.minor
        · rw [if_pos h2']
          constructor
          · intro _
            exact Or.inr (Or.inl ⟨e1, h2'⟩)
          · intro _
            omega
        · rw [if_neg h2']
          have e2 : v.minor = o.minor := by omega
          by_cases h3 : v.patch < o.patch
          · rw [if_pos h3]
            constructor
            · intro hx
              exact absurd hx (by omega)
            · intro hx
              exfalso
              rcases hx with h | ⟨_, hm⟩ | ⟨_, _, hp⟩ | ⟨_, _, hp, _⟩ <;> omega
          · rw [if_neg h3]
            by_cases h3' : o.patch < v.patch
            · rw [if_pos h3']
              constructor
              · intro _
                exact Or.inr (Or.inr (Or.inl ⟨e1, e2, h3'⟩))
              · intro _
                omega
            · rw [if_neg h3']
              have e3 : v.patch = o.patch := by omega
              constructor
              · intro hx
                exact Or.inr (Or.inr (Or.inr ⟨e1, e2, e3, hx⟩))
              · intro hx
                rcases hx with h | ⟨_, hm⟩ | ⟨_, _, hp⟩ | ⟨_, _, _, hq⟩
                · omega
                · omega
                · omega
                · exact hq

theorem compareVersions_pos_trans {a b c : SemVer}
    (h1 : 0 < compareVersions a b) (h2 : 0 < compareVersions b c) :
    0 < compareVersions a c := by
  rw [compareVersions_pos_iff] at h1 h2 ⊢
  rcases h1 with h | ⟨e1, h⟩ | ⟨e1, e2, h⟩ | ⟨e1, e2, e3, h⟩ <;>
    rcases h2 with g | ⟨f1, g⟩ | ⟨f1, f2, g⟩ | ⟨f1, f2, f3, g⟩
  · exact Or.inl (by omega)
  · exact Or.inl (by omega)
  · exact Or.inl (by omega)
  · exact Or.inl (by omega)
  · exact Or.inl (by omega)
  · exact Or.inr (Or.inl ⟨by omega, by omega⟩)
  · exact Or.inr (Or.inl ⟨by omega, by omega⟩)
  · exact Or.inr (Or.inl ⟨by omega, by omega⟩)
  · exact Or.inl (by omega)
  · exact Or.inr (Or.inl ⟨by omega, by omega⟩)
  · exact Or.inr (Or.inr (Or.inl ⟨by omega, by omega, by omega⟩))
  · exact Or.inr (Or.inr (Or.inl ⟨by omega, by omega, by omega⟩))
  · exact Or.inl (by omega)
  · exact Or.inr (Or.inl ⟨by omega, by omega⟩)
  · exact Or.inr (Or.inr (Or.inl ⟨by omega, by omega, by omega⟩))
  · exact Or.inr (Or.inr (Or.inr ⟨by omega, by omega, by omega, comparePre_pos_trans h g⟩))

theorem compareVersions_pos_asymm {a b : SemVer}
    (h : 0 < compareVersions a b) : compareVersions b a ≤ 0 := by
  by_contra hc
  push_neg at hc
  have := compareVersions_pos_trans h hc
  rw [compareVersions_self] at this
  omega

/-- Invariant of the scan at lines 71-84: when the running maximum parses as
a semantic version, the scan returns normally with an entry of the list that
itself parses and that no parsable entry strictly exceeds under
`Version.Compare`; the result is the seed or strictly above it.  (Unparsable
candidates are skipped; an unparsable running maximum together with a parsing
candidate is the panic of C3 and is outside this invariant.) -/
theorem scanLatest_max_aux :
    ∀ (rest : List String) (v0 : String) (cur : SemVer),
      parseSemver v0 = some cur →
      ∃ m vm, scanLatest v0 rest = Except.ok m ∧ m ∈ v0 :: rest ∧
        parseSemver m = some vm ∧
        (∀ x ∈ v0 :: rest, ∀ vx, parseSemver x = some vx → compareVersions vx vm ≤ 0) ∧
        (m = v0 ∨ 0 < compareVersions vm cur) := by
  intro rest
  induction rest with
  | nil =>
    intro v0 cur hcur
    refine ⟨v0, cur, rfl, by simp, hcur, ?_, Or.inl rfl⟩
    intro x hx vx hxp
    have hxv : x = v0 := by simpa using hx
    rw [hxv, hcur] at hxp
    have hCV : cur = vx := Option.some.inj hxp
    rw [← hCV, compareVersions_self]
  | cons c rest' ih =>
    intro v0 cur hcur
    have hcons : scanLatest v0 (c :: rest') =
        (match scanStep v0 c with
         | Except.error e => Except.error e
         | Except.ok l2 => scanLatest l2 rest') := rfl
    cases hnc : parseSemver c with
    | none =>
      have hstep : scanStep v0 c = Except.ok v0 := by
        unfold scanStep
        rw [hnc]
      have hrw : scanLatest v0 (c :: rest') = scanLatest v0 rest' := by
        rw [hcons, hstep]
      obtain ⟨m, vm, hscan, hmem, hpm, hmax, hseed⟩ := ih v0 cur hcur
      refine ⟨m, vm, by rw [hrw]; exact hscan, ?_, hpm, ?_, hseed⟩
      · rcases List.mem_cons.1 hmem with he | hr
        · simp [he]
        · simp [hr]
      · intro x hx vx hxp
        rcases List.mem_cons.1 hx with he | hr
        · exact hmax x (by simp [he]) vx hxp
        · rcases List.mem_cons.1 hr with he2 | hr2
          · rw [he2, hnc] at hxp
            exact absurd hxp (by simp)
          · exact hmax x (by simp [hr2]) vx hxp
    | some nc =>
      have hstep : scanStep v0 c =
          Except.ok (if 0 < compareVersions nc cur then c else v0) := by
        unfold scanStep
        rw [hnc, hcur]
      by_cases hgt : 0 < compareVersions nc cur
      · have hrw : scanLatest v0 (c :: rest') = scanLatest c rest' := by
          rw [hcons, hstep, if_pos hgt]
        obtain ⟨m, vm, hscan, hmem, hpm, hmax, hseed⟩ := ih c nc hnc
        refine ⟨m, vm, by rw [hrw]; exact hscan, by simp [List.mem_cons.1 hmem],
          hpm, ?_, ?_⟩
        · intro x hx vx hxp
          rcases List.mem_cons.1 hx with he | hr
          · rw [he, hcur] at hxp
            have hvx : cur = vx := Option.some.inj hxp
            rcases hseed with hmc | hstrict
            · rw [hmc, hnc] at hpm
              have hvm : nc = vm := Option.some.inj hpm
              rw [← hvx, ← hvm]
              exact compareVersions_pos_asymm hgt
            · have h2 : 0 < compareVersions vm cur :=
                compareVersions_pos_trans hstrict hgt
              rw [← hvx]
              exact compareVersions_pos_asymm h2
          · exact hmax x hr vx hxp
        · refine Or.inr ?_
          rcases hseed with hmc | hstrict
          · rw [hmc, hnc] at hpm
            have hvm : nc = vm := Option.some.inj hpm
            rw [← hvm]
            exact hgt
          · exact compareVersions_pos_trans hstrict hgt
      · have hrw : scanLatest v0 (c :: rest') = scanLatest v0 rest' := by
          rw [hcons, hstep, if_neg hgt]
        obtain ⟨m, vm, hscan, hmem, hpm, hmax, hseed⟩ := ih v0 cur hcur
        refine ⟨m, vm, by rw [hrw]; exact hscan, ?_, hpm, ?_, hseed⟩
        · rcases List.mem_cons.1 hmem with he | hr
          · simp [he]
          · simp [hr]
        · intro x hx vx hxp
          rcases List.mem_cons.1 hx with he | hr
          · exact hmax x (by simp [he]) vx hxp
          · rcases List.mem_cons.1 hr with he2 | hr2
            · rw [he2, hnc] at hxp
              have hvx : nc = vx := Option.some.inj hxp
              rcases hseed with hmv | hstrict
              · rw [hmv, hcur] at hpm
                have hvm : cur = vm := Option.some.inj hpm
                rw [← hvx, ← hvm]
                omega
              · by_contra hcon
                push_neg at hcon
                have h2 : 0 < compareVersions vx cur :=
                  compareVersions_pos_trans hcon hstrict
                rw [← hvx] at h2
                exact hgt h2
            · exact hmax x (by simp [hr2]) vx hxp

theorem statusOf_eq_true_iff (c l : String) :
    statusOf c l = true ↔
      ∃ cv lv, parseSemver c = some cv ∧ parseSemver l = some lv ∧
        compareVersions cv lv = 0 := by
  unfold statusOf
  cases hl : parseSemver l with
  | none => simp
  | some lv0 =>
    cases hc : parseSemver c with
    | none => simp
    | some cv0 => simp

/-! ## Claim theorems -/

/-- C1: for every emitted StatusSample, isCurrent (gauge value 1.0) holds iff
both the declared and the latest version parse as semantic versions and
compare equal; a sample whose versions do not satisfy this carries 0.0. -/
theorem C1_emitted_isCurrent_iff (fetch : String → FetchOutcome) (name : String)
    (src : List (String × GoVal)) (s : StatusSample)
    (hmem : s ∈ (processHelmSource fetch name src).1) :
    s.isCurrent = true ↔
      ∃ dv lv, parseSemver s.currentVersion = some dv ∧
        parseSemver s.latestVersion = some lv ∧ compareVersions dv lv = 0 := by
  unfold processHelmSource at hmem
  cases hx : extractHelmSource src with
  | none =>
    simp only [hx] at hmem
    simp at hmem
  | some d =>
    simp only [hx] at hmem
    cases hr : (getLatestChartVersion fetch d.repoURL d.chartName).1 with
    | failed e =>
      simp only [hr] at hmem
      simp at hmem
    | crashed =>
      simp only [hr] at hmem
      simp at hmem
    | ok latest =>
      simp only [hr] at hmem
      simp only [List.mem_singleton] at hmem
      rw [hmem]
      exact statusOf_eq_true_iff d.chartVersion latest

theorem C1_witness :
    (⟨"a", "nginx", "https://x/", "1.0.0", "1.0.0", true⟩ : StatusSample).isCurrent = true ↔
      ∃ dv lv,
        parseSemver (⟨"a", "nginx", "https://x/", "1.0.0", "1.0.0", true⟩ :
          StatusSample).currentVersion = some dv ∧
        parseSemver (⟨"a", "nginx", "https://x/", "1.0.0", "1.0.0", true⟩ :
          StatusSample).latestVersion = some lv ∧
        compareVersions dv lv = 0 :=
  C1_emitted_isCurrent_iff (fun _ => FetchOutcome.ok [("nginx", ["1.0.0"])]) "a"
    [("chart", GoVal.str "nginx"), ("repoURL", GoVal.str "https://x"),
     ("targetRevision", GoVal.str "1.0.0")]
    ⟨"a", "nginx", "https://x/", "1.0.0", "1.0.0", true⟩ (by decide)

/-- C2 counterexample: for the non-empty entry sequence
["not-semver", "2.0.0"] the scan does not return the maximum under
semantic-versioning order ("2.0.0", the only entry that parses): the
unparsable running maximum together with the parsing candidate dereferences
nil and the process panics (the C3 bug), so nothing is returned at all. -/
theorem C2_counterexample :
    (getLatestChartVersion
      (fun _ => FetchOutcome.ok [("web", ["not-semver", "2.0.0"])])
      "https://repo.example/" "web").1 = ResolveOutcome.crashed
    ∧ (getLatestChartVersion
      (fun _ => FetchOutcome.ok [("web", ["not-semver", "2.0.0"])])
      "https://repo.example/" "web").1 ≠ ResolveOutcome.ok "2.0.0" :=
  ⟨by decide, by decide⟩

/-- C2 (amended): when the index fetch succeeds and the chart's first listed
entry parses as a semantic version, getLatestChartVersion returns an entry of
the list that itself parses and that no parsable entry strictly exceeds under
Version.Compare — the running-maximum scan seeded with the first entry,
replacing it exactly when a later candidate parses successfully and compares
Greater; the result is the seed or strictly greater than it.  (When the first
entry does not parse and some later entry does, the scan panics instead of
returning a maximum — the C3 bug.) -/
theorem C2_resolveLatest_max (fetch : String → FetchOutcome) (u c : String)
    (entries : List (String × List String)) (v0 : String) (rest : List String)
    (cur : SemVer)
    (hfetch : fetch (u ++ "/index.yaml") = FetchOutcome.ok entries)
    (hchart : alistLookup entries c = some (v0 :: rest))
    (hseed : parseSemver v0 = some cur) :
    ∃ m vm, (getLatestChartVersion fetch u c).1 = ResolveOutcome.ok m ∧
      m ∈ v0 :: rest ∧ parseSemver m = some vm ∧
      (∀ x ∈ v0 :: rest, ∀ vx, parseSemver x = some vx →
        compareVersions vx vm ≤ 0) ∧
      (m = v0 ∨ 0 < compareVersions vm cur) := by
  obtain ⟨m, vm, hscan, hmem, hpm, hmax, hs⟩ := scanLatest_max_aux rest v0 cur hseed
  refine ⟨m, vm, ?_, hmem, hpm, hmax, hs⟩
  simp only [getLatestChartVersion, hfetch, hchart, hscan]

theorem C2_witness :
    (getLatestChartVersion
      (fun _ => FetchOutcome.ok [("app", ["1.0.0", "1.2.0", "1.1.0"])])
      "https://charts.example/" "app").1 = ResolveOutcome.ok "1.2.0"
    ∧ ∃ m vm, (getLatestChartVersion
        (fun _ => FetchOutcome.ok [("app", ["1.0.0", "1.2.0", "1.1.0"])])
        "https://charts.example/" "app").1 = ResolveOutcome.ok m ∧
        m ∈ "1.0.0" :: ["1.2.0", "1.1.0"] ∧ parseSemver m = some vm ∧
        (∀ x ∈ "1.0.0" :: ["1.2.0", "1.1.0"], ∀ vx, parseSemver x = some vx →
          compareVersions vx vm ≤ 0) ∧
        (m = "1.0.0" ∨ 0 < compareVersions vm ⟨1, 0, 0, "", ""⟩) :=
  ⟨by decide,
   C2_resolveLatest_max _ "https://charts.example/" "app"
     [("app", ["1.0.0", "1.2.0", "1.1.0"])] "1.0.0" ["1.2.0", "1.1.0"]
     ⟨1, 0, 0, "", ""⟩ rfl rfl (by decide)⟩

/-- C3: the claim says the scan never aborts on unparsable entries.  The code
violates it: with entries ["bogus", "1.0.0"] the unparsable seed "bogus"
leaves `current` a nil pointer, and since the candidate "1.0.0" parses,
`next.GreaterThan(current)` dereferences nil and panics (first conjunct).
The all-malformed part of the claim does hold: with entries
["bogus", "worse"] the first listed string is returned (second conjunct). -/
theorem C3_scan_crash :
    (getLatestChartVersion (fun _ => FetchOutcome.ok [("app", ["bogus", "1.0.0"])])
      "https://charts.example/" "app").1 = ResolveOutcome.crashed
    ∧ (getLatestChartVersion (fun _ => FetchOutcome.ok [("app", ["bogus", "worse"])])
      "https://charts.example/" "app").1 = ResolveOutcome.ok "bogus" :=
  ⟨by decide, by decide⟩

/-- C4 counterexample: with the pre-normalized repository URL "https://x/",
the fetched URL is not repositoryURL ++ "index.yaml" — the code inserts
another separator. -/
theorem C4_counterexample :
    (getLatestChartVersion (fun _ => FetchOutcome.netErr) "https://x/" "nginx").2 ≠
      ["https://x/" ++ "index.yaml"] := by
  decide

/-- C4 amended: getLatestChartVersion issues exactly one fetch, whose URL is
repositoryURL ++ "/index.yaml"; with the trailing separator guaranteed by the
caller the URL therefore contains a doubled separator. -/
theorem C4_amended_fetch_url (fetch : String → FetchOutcome) (u c : String)
    (h : goHasSuffix u "/" = true) :
    (getLatestChartVersion fetch u c).2 = [u ++ "/index.yaml"] := rfl

theorem C4_witness :
    goHasSuffix "https://x/" "/" = true ∧
    (getLatestChartVersion (fun _ => FetchOutcome.netErr) "https://x/" "nginx").2 =
      ["https://x/" ++ "/index.yaml"] :=
  ⟨by decide,
   C4_amended_fetch_url (fun _ => FetchOutcome.netErr) "https://x/" "nginx" (by decide)⟩

/-- C5: getLatestChartVersion returns a FetchError exactly when the network
call or the decode fails, and a NotFoundError exactly when the document was
fetched and decoded but the chart is absent or has zero version records (in
particular the absent-chart case returns, it does not panic). -/
theorem C5_error_cases (fetch : String → FetchOutcome) (u c : String) :
    ((getLatestChartVersion fetch u c).1 = ResolveOutcome.failed ResolveErr.fetchError ↔
      fetch (u ++ "/index.yaml") = FetchOutcome.netErr ∨
      fetch (u ++ "/index.yaml") = FetchOutcome.decodeErr)
    ∧ ((getLatestChartVersion fetch u c).1 = ResolveOutcome.failed ResolveErr.notFound ↔
      ∃ entries, fetch (u ++ "/index.yaml") = FetchOutcome.ok entries ∧
        (alistLookup entries c = none ∨ alistLookup entries c = some [])) := by
  simp only [getLatestChartVersion]
  cases hf : fetch (u ++ "/index.yaml") with
  | netErr => simp
  | decodeErr => simp
  | ok entries0 =>
    cases hl : alistLookup entries0 c with
    | none => simp [hl]
    | some vs =>
      cases vs with
      | nil => simp [hl]
      | cons v0 rest =>
        cases hs : scanLatest v0 rest with
        | error e => simp [hl, hs]
        | ok m => simp [hl, hs]

theorem extractHelmSource_none_iff (src : List (String × GoVal)) :
    extractHelmSource src = none ↔
      alistLookup src "chart" = none ∨ readStr src "chart" = "" ∨
      readStr src "repoURL" = "" ∨ readStr src "targetRevision" = "" := by
  unfold extractHelmSource
  cases hc : alistLookup src "chart" with
  | none => simp
  | some v =>
    cases v with
    | nil => simp [readStr, hc]
    | str s =>
      by_cases hcond : readStr src "chart" = "" ∨ readStr src "repoURL" = "" ∨
          readStr src "targetRevision" = ""
      · rw [if_pos hcond]
        simp [hcond]
      · rw [if_neg hcond]
        constructor
        · intro hx
          exact absurd hx (by simp)
        · intro hx
          rcases hx with hx | hx
          · exact absurd hx (by simp)
          · exact absurd hx hcond
    | num n => simp [readStr, hc]
    | boolean b => simp [readStr, hc]
    | map entries => simp [readStr, hc]
    | arr items => simp [readStr, hc]

theorem extractHelmSource_shape (src : List (String × GoVal)) :
    extractHelmSource src = none ∨
      extractHelmSource src = some ⟨readStr src "chart",
        normalizeRepoURL (readStr src "repoURL"), readStr src "targetRevision"⟩ := by
  unfold extractHelmSource
  cases hc : alistLookup src "chart" with
  | none => exact Or.inl rfl
  | some v =>
    cases v with
    | nil => exact Or.inl rfl
    | str s =>
      by_cases hcond : readStr src "chart" = "" ∨ readStr src "repoURL" = "" ∨
          readStr src "targetRevision" = ""
      · rw [if_pos hcond]
        exact Or.inl rfl
      · rw [if_neg hcond]
        exact Or.inr rfl
    | num n =>
      rw [if_pos (Or.inl (by unfold readStr; rw [hc]))]
      exact Or.inl rfl
    | boolean b =>
      rw [if_pos (Or.inl (by unfold readStr; rw [hc]))]
      exact Or.inl rfl
    | map entries =>
      rw [if_pos (Or.inl (by unfold readStr; rw [hc]))]
      exact Or.inl rfl
    | arr items =>
      rw [if_pos (Or.inl (by unfold readStr; rw [hc]))]
      exact Or.inl rfl

theorem goHasSuffix_append_slash (u : String) : goHasSuffix (u ++ "/") "/" = true := by
  unfold goHasSuffix
  rw [String.data_append]
  have hd : ("/" : String).data = ['/'] := rfl
  rw [hd]
  exact (List.isSuffixOf_iff_suffix).2 (List.suffix_append _ _)

/-- C6: extract yields absent exactly when the record has no usable `chart`
key or any of the three read fields is missing, non-string or empty; when it
yields a descriptor, its fields are the three extracted strings (the
repository URL carrying the trailing-separator normalization of lines
127-132). -/
theorem C6_extract_absent_iff (src : List (String × GoVal)) :
    (extractHelmSource src = none ↔
      alistLookup src "chart" = none ∨ readStr src "chart" = "" ∨
      readStr src "repoURL" = "" ∨ readStr src "targetRevision" = "")
    ∧ (extractHelmSource src = none ∨
      extractHelmSource src = some ⟨readStr src "chart",
        normalizeRepoURL (readStr src "repoURL"), readStr src "targetRevision"⟩) :=
  ⟨extractHelmSource_none_iff src, extractHelmSource_shape src⟩

/-- C7: every descriptor produced by extract has its repository URL
normalized: unchanged when the extracted repoURL already ends with "/",
"/" appended otherwise, so it always ends with the separator. -/
theorem C7_repoURL_normalized (src : List (String × GoVal)) (d : HelmSourceDescriptor)
    (h : extractHelmSource src = some d) :
    (goHasSuffix (readStr src "repoURL") "/" = true → d.repoURL = readStr src "repoURL")
    ∧ (goHasSuffix (readStr src "repoURL") "/" = false →
        d.repoURL = readStr src "repoURL" ++ "/")
    ∧ goHasSuffix d.repoURL "/" = true := by
  have hd : d = ⟨readStr src "chart", normalizeRepoURL (readStr src "repoURL"),
      readStr src "targetRevision"⟩ := by
    rcases extractHelmSource_shape src with hnone | hsome
    · rw [h] at hnone
      exact absurd hnone (by simp)
    · rw [h] at hsome
      exact Option.some.inj hsome
  refine ⟨?_, ?_, ?_⟩
  · intro ht
    rw [hd]
    simp [normalizeRepoURL, ht]
  · intro hf
    rw [hd]
    simp [normalizeRepoURL, hf]
  · rw [hd]
    show goHasSuffix (normalizeRepoURL (readStr src "repoURL")) "/" = true
    unfold normalizeRepoURL
    by_cases hx : goHasSuffix (readStr src "repoURL") "/" = true
    · rw [if_pos hx]
      exact hx
    · rw [if_neg hx]
      exact goHasSuffix_append_slash _

theorem C7_witness :
    extractHelmSource [("chart", GoVal.str "nginx"), ("repoURL", GoVal.str "https://x"),
      ("targetRevision", GoVal.str "1.0.0")] = some ⟨"nginx", "https://x/", "1.0.0"⟩
    ∧ (⟨"nginx", "https://x/", "1.0.0"⟩ : HelmSourceDescriptor).repoURL =
        readStr [("chart", GoVal.str "nginx"), ("repoURL", GoVal.str "https://x"),
          ("targetRevision", GoVal.str "1.0.0")] "repoURL" ++ "/" :=
  ⟨by decide,
   (C7_repoURL_normalized
     [("chart", GoVal.str "nginx"), ("repoURL", GoVal.str "https://x"),
      ("targetRevision", GoVal.str "1.0.0")]
     ⟨"nginx", "https://x/", "1.0.0"⟩ (by decide)).2.1 (by decide)⟩

theorem processHelmSource_skip (fetch : String → FetchOutcome) (name : String)
    (src : List (String × GoVal)) (d : HelmSourceDescriptor) (e : ResolveErr)
    (hd : extractHelmSource src = some d)
    (he : (getLatestChartVersion fetch d.repoURL d.chartName).1 =
      ResolveOutcome.failed e) :
    processHelmSource fetch name src = ([], false) := by
  unfold processHelmSource
  simp only [hd, he]

theorem processSourcesList_all_absent (fetch : String → FetchOutcome) (name : String)
    (l : List GoVal)
    (h : ∀ v ∈ l, ∀ m, v = GoVal.map m → extractHelmSource m = none) :
    processSourcesList fetch name l = ([], false) := by
  induction l with
  | nil => rfl
  | cons v rest ih =>
    have hrest : ∀ v' ∈ rest, ∀ m, v' = GoVal.map m → extractHelmSource m = none :=
      fun v' hv' => h v' (by simp [hv'])
    cases v with
    | map m =>
      have hm : extractHelmSource m = none := h (GoVal.map m) (by simp) m rfl
      have hpm : processHelmSource fetch name m = ([], false) := by
        unfold processHelmSource
        rw [hm]
      simp [processSourcesList, hpm, ih hrest]
    | nil => simp [processSourcesList, ih hrest]
    | str s => simp [processSourcesList, ih hrest]
    | num n => simp [processSourcesList, ih hrest]
    | boolean b => simp [processSourcesList, ih hrest]
    | arr items => simp [processSourcesList, ih hrest]

/-- C8: a FetchError or NotFoundError on one descriptor only removes that
descriptor's sample: the surrounding sources of the same application, and the
other applications of the same cycle, produce exactly the samples they would
produce without it. -/
theorem C8_error_skips_only_descriptor (fetch : String → FetchOutcome) (name : String)
    (src : List (String × GoVal)) (d : HelmSourceDescriptor) (e : ResolveErr)
    (pre post : List GoVal) (apps1 apps2 : List AppRecord)
    (hd : extractHelmSource src = some d)
    (he : (getLatestChartVersion fetch d.repoURL d.chartName).1 =
      ResolveOutcome.failed e) :
    processSourcesList fetch name (pre ++ GoVal.map src :: post) =
      processSourcesList fetch name (pre ++ post)
    ∧ runOnce fetch (apps1 ++
        ⟨name, [("spec", GoVal.map [("source", GoVal.map src)])]⟩ :: apps2) =
      runOnce fetch (apps1 ++ apps2) := by
  have hskip : processHelmSource fetch name src = ([], false) :=
    processHelmSource_skip fetch name src d e hd he
  constructor
  · induction pre with
    | nil => simp [processSourcesList, hskip]
    | cons p pre' ih =>
      cases p with
      | map m2 => simp [processSourcesList, ih]
      | nil => simp [processSourcesList, ih]
      | str s2 => simp [processSourcesList, ih]
      | num n2 => simp [processSourcesList, ih]
      | boolean b2 => simp [processSourcesList, ih]
      | arr items2 => simp [processSourcesList, ih]
  · have happ : processApp fetch
        ⟨name, [("spec", GoVal.map [("source", GoVal.map src)])]⟩ = ([], false) := by
      simp [processApp, alistLookup, hskip]
    induction apps1 with
    | nil => simp [runOnce, happ]
    | cons a as ih => simp [runOnce, ih]

theorem C8_witness :
    processSourcesList
      (fun u => if u = "https://ok//index.yaml"
        then FetchOutcome.ok [("nginx", ["1.0.0"])] else FetchOutcome.netErr)
      "a"
      ([] ++ GoVal.map [("chart", GoVal.str "bad"), ("repoURL", GoVal.str "https://bad/"),
        ("targetRevision", GoVal.str "1.0.0")] ::
       [GoVal.map [("chart", GoVal.str "nginx"), ("repoURL", GoVal.str "https://ok/"),
        ("targetRevision", GoVal.str "1.0.0")]]) =
    processSourcesList
      (fun u => if u = "https://ok//index.yaml"
        then FetchOutcome.ok [("nginx", ["1.0.0"])] else FetchOutcome.netErr)
      "a"
      ([] ++ [GoVal.map [("chart", GoVal.str "nginx"), ("repoURL", GoVal.str "https://ok/"),
        ("targetRevision", GoVal.str "1.0.0")]]) :=
  (C8_error_skips_only_descriptor
    (fun u => if u = "https://ok//index.yaml"
      then FetchOutcome.ok [("nginx", ["1.0.0"])] else FetchOutcome.netErr)
    "a"
    [("chart", GoVal.str "bad"), ("repoURL", GoVal.str "https://bad/"),
      ("targetRevision", GoVal.str "1.0.0")]
    ⟨"bad", "https://bad/", "1.0.0"⟩ ResolveErr.fetchError
    []
    [GoVal.map [("chart", GoVal.str "nginx"), ("repoURL", GoVal.str "https://ok/"),
      ("targetRevision", GoVal.str "1.0.0")]]
    [] []
    (by decide) (by decide)).1

/-- C9: gauge samples are emitted only for source records whose extraction
succeeded; an application with a missing or non-map spec, with neither a
`source` map nor a `sources` sequence, or whose candidate sources all fail
extraction, contributes no samples and no panic. -/
theorem C9_samples_only_for_valid (fetch : String → FetchOutcome) (name : String)
    (obj spec src : List (String × GoVal)) :
    ((∀ m, alistLookup obj "spec" ≠ some (GoVal.map m)) →
      processApp fetch ⟨name, obj⟩ = ([], false))
    ∧ (extractHelmSource src = none → processHelmSource fetch name src = ([], false))
    ∧ (alistLookup obj "spec" = some (GoVal.map spec) →
        (∀ m, alistLookup spec "source" = some (GoVal.map m) →
          extractHelmSource m = none) →
        (∀ l, alistLookup spec "sources" = some (GoVal.arr l) →
          ∀ v ∈ l, ∀ m, v = GoVal.map m → extractHelmSource m = none) →
        processApp fetch ⟨name, obj⟩ = ([], false)) := by
  refine ⟨?_, ?_, ?_⟩
  · intro hno
    unfold processApp
    cases hs : alistLookup obj "spec" with
    | none => rfl
    | some v =>
      cases v with
      | map m => exact absurd hs (hno m)
      | nil => rfl
      | str s2 => rfl
      | num n2 => rfl
      | boolean b2 => rfl
      | arr items2 => rfl
  · intro hx
    unfold processHelmSource
    rw [hx]
  · intro hspec hsingle hmulti
    have hr1 : (match alistLookup spec "source" with
        | some (GoVal.map s2) => processHelmSource fetch name s2
        | _ => ([], false)) = ([], false) := by
      cases hs : alistLookup spec "source" with
      | none => rfl
      | some v =>
        cases v with
        | map m =>
          have hm := hsingle m hs
          show processHelmSource fetch name m = ([], false)
          unfold processHelmSource
          rw [hm]
        | nil => rfl
        | str s2 => rfl
        | num n2 => rfl
        | boolean b2 => rfl
        | arr items2 => rfl
    have hr2 : (match alistLookup spec "sources" with
        | some (GoVal.arr srcs) =>
          processSourcesList fetch name srcs
        | _ => ([], false)) = ([], false) := by
      cases hs : alistLookup spec "sources" with
      | none => rfl
      | some v =>
        cases v with
        | arr l =>
          exact processSourcesList_all_absent fetch name l (hmulti l hs)
        | nil => rfl
        | str s2 => rfl
        | num n2 => rfl
        | boolean b2 => rfl
        | map entries2 => rfl
    unfold processApp
    simp only [hspec]
    rw [hr1]
    simp only [Bool.false_eq_true, if_false]
    cases hs : alistLookup spec "sources" with
    | none => rfl
    | some v =>
      cases v with
      | arr l =>
        rw [hs] at hr2
        have : processSourcesList fetch name l = ([], false) := hr2
        simp [this]
      | nil => rfl
      | str s2 => rfl
      | num n2 => rfl
      | boolean b2 => rfl
      | map entries2 => rfl

theorem C9_witness :
    processApp (fun _ => FetchOutcome.netErr) ⟨"a", []⟩ = ([], false)
    ∧ processHelmSource (fun _ => FetchOutcome.netErr) "a"
        [("repoURL", GoVal.str "https://x")] = ([], false)
    ∧ processApp (fun _ => FetchOutcome.netErr) ⟨"a", [("spec", GoVal.map [])]⟩ =
        ([], false) :=
  ⟨(C9_samples_only_for_valid (fun _ => FetchOutcome.netErr) "a" [] [] []).1
     (by intro m h; simp [alistLookup] at h),
   (C9_samples_only_for_valid (fun _ => FetchOutcome.netErr) "a" [] []
     [("repoURL", GoVal.str "https://x")]).2.1 (by decide),
   (C9_samples_only_for_valid (fun _ => FetchOutcome.netErr) "a"
     [("spec", GoVal.map [])] [] []).2.2 rfl
     (by intro m h; simp [alistLookup] at h)
     (by intro l h; simp [alistLookup] at h)⟩

/-- C10 counterexample: an application whose spec has both shapes, where the
single `source` hits the nil-dereference panic of the C3 scan bug: the
process dies before `spec.sources` is reached, so the listed source emits no
sample (first conjunct) even though processed on its own it would emit one
(second conjunct) — both shapes are not always processed. -/
theorem C10_counterexample :
    processApp
      (fun u => if u = "https://ok//index.yaml"
        then FetchOutcome.ok [("nginx", ["1.0.0"])]
        else FetchOutcome.ok [("badchart", ["bogus", "1.0.0"])])
      ⟨"a", [("spec", GoVal.map
        [("source", GoVal.map [("chart", GoVal.str "badchart"),
           ("repoURL", GoVal.str "https://bad/"),
           ("targetRevision", GoVal.str "1.0.0")]),
         ("sources", GoVal.arr [GoVal.map [("chart", GoVal.str "nginx"),
           ("repoURL", GoVal.str "https://ok/"),
           ("targetRevision", GoVal.str "1.0.0")]])])]⟩ = ([], true)
    ∧ processHelmSource
      (fun u => if u = "https://ok//index.yaml"
        then FetchOutcome.ok [("nginx", ["1.0.0"])]
        else FetchOutcome.ok [("badchart", ["bogus", "1.0.0"])])
      "a" [("chart", GoVal.str "nginx"), ("repoURL", GoVal.str "https://ok/"),
        ("targetRevision", GoVal.str "1.0.0")] =
      ([⟨"a", "nginx", "https://ok/", "1.0.0", "1.0.0", true⟩], false) :=
  ⟨by decide, by decide⟩

/-- C10 (amended): an application whose spec has both a `source` map and a
`sources` sequence has both processed — the single source first, then each
map entry of the sequence in order — provided processing the single source
does not abort the process with a runtime panic (the C3 bug); a panic kills
the process before `sources` is reached. -/
theorem C10_both_shapes_in_order (fetch : String → FetchOutcome) (name : String)
    (obj spec m : List (String × GoVal)) (l : List GoVal)
    (hspec : alistLookup obj "spec" = some (GoVal.map spec))
    (hsrc : alistLookup spec "source" = some (GoVal.map m))
    (hsrcs : alistLookup spec "sources" = some (GoVal.arr l))
    (hnp : (processHelmSource fetch name m).2 = false) :
    processApp fetch ⟨name, obj⟩ =
      ((processHelmSource fetch name m).1 ++ (processSourcesList fetch name l).1,
        (processSourcesList fetch name l).2)
    ∧ ∀ m2 rest, (processHelmSource fetch name m2).2 = false →
        processSourcesList fetch name (GoVal.map m2 :: rest) =
          ((processHelmSource fetch name m2).1 ++
            (processSourcesList fetch name rest).1,
            (processSourcesList fetch name rest).2) := by
  constructor
  · unfold processApp
    simp only [hspec, hsrc, hsrcs]
    simp [hnp]
  · intro m2 rest h2
    simp [processSourcesList, h2]

theorem C10_witness :
    processApp
      (fun u => if u = "https://ok//index.yaml"
        then FetchOutcome.ok [("nginx", ["1.0.0"]), ("redis", ["2.0.0"])]
        else FetchOutcome.netErr)
      ⟨"a", [("spec", GoVal.map
        [("source", GoVal.map [("chart", GoVal.str "nginx"),
           ("repoURL", GoVal.str "https://ok/"), ("targetRevision", GoVal.str "1.0.0")]),
         ("sources", GoVal.arr [GoVal.map [("chart", GoVal.str "redis"),
           ("repoURL", GoVal.str "https://ok/"),
           ("targetRevision", GoVal.str "2.0.0")]])])]⟩ =
      ((processHelmSource
          (fun u => if u = "https://ok//index.yaml"
            then FetchOutcome.ok [("nginx", ["1.0.0"]), ("redis", ["2.0.0"])]
            else FetchOutcome.netErr)
          "a" [("chart", GoVal.str "nginx"), ("repoURL", GoVal.str "https://ok/"),
            ("targetRevision", GoVal.str "1.0.0")]).1 ++
        (processSourcesList
          (fun u => if u = "https://ok//index.yaml"
            then FetchOutcome.ok [("nginx", ["1.0.0"]), ("redis", ["2.0.0"])]
            else FetchOutcome.netErr)
          "a" [GoVal.map [("chart", GoVal.str "redis"),
            ("repoURL", GoVal.str "https://ok/"),
            ("targetRevision", GoVal.str "2.0.0")]]).1,
        (processSourcesList
          (fun u => if u = "https://ok//index.yaml"
            then FetchOutcome.ok [("nginx", ["1.0.0"]), ("redis", ["2.0.0"])]
            else FetchOutcome.netErr)
          "a" [GoVal.map [("chart", GoVal.str "redis"),
            ("repoURL", GoVal.str "https://ok/"),
            ("targetRevision", GoVal.str "2.0.0")]]).2) :=
  (C10_both_shapes_in_order
    (fun u => if u = "https://ok//index.yaml"
      then FetchOutcome.ok [("nginx", ["1.0.0"]), ("redis", ["2.0.0"])]
      else FetchOutcome.netErr)
    "a"
    [("spec", GoVal.map
      [("source", GoVal.map [("chart", GoVal.str "nginx"),
         ("repoURL", GoVal.str "https://ok/"), ("targetRevision", GoVal.str "1.0.0")]),
       ("sources", GoVal.arr [GoVal.map [("chart", GoVal.str "redis"),
         ("repoURL", GoVal.str "https://ok/"),
         ("targetRevision", GoVal.str "2.0.0")]])])]
    [("source", GoVal.map [("chart", GoVal.str "nginx"),
       ("repoURL", GoVal.str "https://ok/"), ("targetRevision", GoVal.str "1.0.0")]),
     ("sources", GoVal.arr [GoVal.map [("chart", GoVal.str "redis"),
       ("repoURL", GoVal.str "https://ok/"),
       ("targetRevision", GoVal.str "2.0.0")]])]
    [("chart", GoVal.str "nginx"), ("repoURL", GoVal.str "https://ok/"),
      ("targetRevision", GoVal.str "1.0.0")]
    [GoVal.map [("chart", GoVal.str "redis"), ("repoURL", GoVal.str "https://ok/"),
      ("targetRevision", GoVal.str "2.0.0")]]
    rfl rfl rfl (by decide)).1

end HelmVC
